import Mathlib

/-!
Verification of the codebase-ai indexing pipeline against its design spec.

The development shallowly embeds the core of the repository:
the structural chunker (backend/chunker.py), the summarizer fallback
(backend/summarizer.py), the per-chunk enrichment pipeline
(backend/main.py process_project together with the db.py row operations),
and the similarity-search path (backend/vector_store.py search_similar,
backend/main.py search_chunks).  Python strings are modelled through their
character lists, machine integers as Nat (no overflow is reachable in the
modelled code paths), and fallible collaborator calls as explicit outcome
flags or Except values.
-/

namespace CodebaseAI

/-! ## String helpers mirroring Python primitives -/

/-- Model of the Python expression file_content.split(chr 10) on the
underlying character list: segments between newline characters, keeping
empty segments, as CPython str.split with an explicit separator does. -/
def splitNlAux : List Char → List (List Char)
  | [] => [[]]
  | c :: rest =>
    if c = '\n' then [] :: splitNlAux rest
    else
      match splitNlAux rest with
      | [] => [[c]]
      | s :: ss => (c :: s) :: ss

/-- Model of Python str.split for the newline separator, as used by
chunker.py to turn file content into lines. -/
def pySplitLines (s : String) : List String :=
  (splitNlAux s.data).map (fun cs => String.mk cs)

/-- Model of the Python expression (chr 10).join(lines). -/
def joinNl : List String → String
  | [] => ""
  | [s] => s
  | s :: t :: rest => s ++ "\n" ++ joinNl (t :: rest)

/-- Model of the Python slice lines[start:stop] for non-negative bounds:
drop start elements, then take stop - start (empty when stop ≤ start). -/
def pySlice (xs : List String) (start stop : Nat) : List String :=
  (xs.drop start).take (stop - start)

/-- Auxiliary count of maximal non-whitespace runs in a character list;
the boolean records whether the previous character was inside a word. -/
def wordCountAux : List Char → Bool → Nat
  | [], _ => 0
  | c :: rest, inWord =>
    if c.isWhitespace then wordCountAux rest false
    else (if inWord then 0 else 1) + wordCountAux rest true

/-- Model of the Python expression len(s.split()): the number of maximal
whitespace-separated words of s. -/
def pyWordCount (s : String) : Nat :=
  wordCountAux s.data false

/-- Auxiliary for pyTitle: the boolean records whether the previous
character was alphabetic (cased), as CPython str.title tracks. -/
def titleAux : List Char → Bool → List Char
  | [], _ => []
  | c :: rest, prevCased =>
    if c.isAlpha then
      (if prevCased then c.toLower else c.toUpper) :: titleAux rest true
    else c :: titleAux rest false

/-- Model of Python str.title(): the first letter of every alphabetic run
is uppercased and the following letters lowercased. -/
def pyTitle (s : String) : String :=
  String.mk (titleAux s.data false)

/-! ## Python AST model (backend/chunker.py input)

The chunker consumes the tree produced by ast.parse.  Per spec section 9
the node-kind enumeration is FunctionDef, ClassDef and other; ast.walk
performs a breadth-first traversal over all nodes. -/

/-- Node kinds distinguished by the chunker; every other Python AST node
falls under other. -/
inductive NodeKind where
  | functionDef
  | classDef
  | other
deriving DecidableEq, Repr

/-- A Python AST node: kind, name (meaningful for definitions), 1-indexed
start line, optional 1-indexed inclusive end line (absent models a parser
without end markers, cf. _get_end_line), and child nodes. -/
inductive PyNode where
  | mk (kind : NodeKind) (name : String) (lineno : Nat)
       (endLineno : Option Nat) (children : List PyNode)

/-- Kind of a node. -/
def PyNode.kind : PyNode → NodeKind
  | .mk k _ _ _ _ => k

/-- Name of a node. -/
def PyNode.name : PyNode → String
  | .mk _ n _ _ _ => n

/-- Start line (1-indexed, as in the Python ast module). -/
def PyNode.lineno : PyNode → Nat
  | .mk _ _ l _ _ => l

/-- Optional inclusive end line (the end_lineno attribute). -/
def PyNode.endLineno : PyNode → Option Nat
  | .mk _ _ _ e _ => e

/-- Child nodes (the result of ast.iter_child_nodes). -/
def PyNode.children : PyNode → List PyNode
  | .mk _ _ _ _ cs => cs

mutual

/-- Number of nodes in a tree. -/
def PyNode.size : PyNode → Nat
  | .mk _ _ _ _ cs => 1 + PyNode.sizeList cs

/-- Number of nodes in a forest. -/
def PyNode.sizeList : List PyNode → Nat
  | [] => 0
  | n :: ns => PyNode.size n + PyNode.sizeList ns

end

/-- Breadth-first traversal with explicit fuel; one unit of fuel is spent
per visited node, so any fuel of at least the forest size is exact
(theorem walkAux_fuel_irrelevant below). -/
def walkAux : Nat → List PyNode → List PyNode
  | 0, _ => []
  | _ + 1, [] => []
  | fuel + 1, n :: rest => n :: walkAux fuel (rest ++ n.children)

/-- Model of ast.walk started on a queue of roots: breadth-first order,
every node of every tree visited exactly once. -/
def walkList (queue : List PyNode) : List PyNode :=
  walkAux (PyNode.sizeList queue) queue

/-! ## Structural chunker (backend/chunker.py) -/

/-- Model of models/chunk.py ChunkCreate: the draft record emitted by the
chunker.  Identifiers are modelled as strings. -/
structure ChunkCreate where
  project_id : String
  function_name : Option String
  file_path : String
  language : String
  chunk_type : String
  code : String
deriving DecidableEq, Repr

/-- Model of CodeChunker._get_end_line: the end_lineno attribute when the
parser supplies it, otherwise lineno + 1. -/
def get_end_line (node : PyNode) : Nat :=
  match node.endLineno with
  | some e => e
  | none => node.lineno + 1

/-- Model of CodeChunker._create_function_chunk: slice the file lines from
lineno - 1 (0-indexed) up to the resolved end line, exclusive. -/
def create_function_chunk (node : PyNode) (file_path file_content project_id : String) :
    ChunkCreate :=
  let start_line := node.lineno - 1
  let end_line := get_end_line node
  let lines := pySplitLines file_content
  { project_id := project_id
    function_name := some node.name
    file_path := file_path
    language := "python"
    chunk_type := "function"
    code := joinNl (pySlice lines start_line end_line) }

/-- Model of CodeChunker._create_class_chunk, identical slicing with kind
class. -/
def create_class_chunk (node : PyNode) (file_path file_content project_id : String) :
    ChunkCreate :=
  let start_line := node.lineno - 1
  let end_line := get_end_line node
  let lines := pySplitLines file_content
  { project_id := project_id
    function_name := some node.name
    file_path := file_path
    language := "python"
    chunk_type := "class"
    code := joinNl (pySlice lines start_line end_line) }

/-- Chunk emitted for one visited node, if any: the body of the walk loop
in _chunk_python_file (isinstance FunctionDef, elif isinstance ClassDef). -/
def chunkOfNode (node : PyNode) (file_path file_content project_id : String) :
    Option ChunkCreate :=
  match node.kind with
  | .functionDef => some (create_function_chunk node file_path file_content project_id)
  | .classDef => some (create_class_chunk node file_path file_content project_id)
  | .other => none

/-- Whole-file chunk emitted by the SyntaxError handler of
_chunk_python_file and by the unsupported-language branch of chunk_file. -/
def fileChunk (file_path file_content language project_id : String) : ChunkCreate :=
  { project_id := project_id
    function_name := none
    file_path := file_path
    language := language
    chunk_type := "file"
    code := file_content }

/-- Module chunk emitted when the walk produced no function or class
chunks. -/
def moduleChunk (file_path file_content project_id : String) : ChunkCreate :=
  { project_id := project_id
    function_name := none
    file_path := file_path
    language := "python"
    chunk_type := "module"
    code := file_content }

/-- Model of CodeChunker._chunk_python_file.  The outcome of ast.parse is
passed explicitly: ok tree for a successful parse, error for a
SyntaxError (the parser itself is the external ast module). -/
def chunk_python_file (file_path file_content project_id : String)
    (parsed : Except Unit PyNode) : List ChunkCreate :=
  match parsed with
  | .error _ => [fileChunk file_path file_content "python" project_id]
  | .ok tree =>
    let chunks := (walkList [tree]).filterMap
      (fun node => chunkOfNode node file_path file_content project_id)
    if chunks.isEmpty then [moduleChunk file_path file_content project_id]
    else chunks

/-- Model of CodeChunker.chunk_file: dispatch on the language string. -/
def chunk_file (file_path file_content language project_id : String)
    (parsed : Except Unit PyNode) : List ChunkCreate :=
  if language = "python" then
    chunk_python_file file_path file_content project_id parsed
  else
    [fileChunk file_path file_content language project_id]

/-- Selector for nodes the chunker turns into chunks: function and class
definitions. -/
def isDefinitionNode (n : PyNode) : Bool :=
  match n.kind with
  | .functionDef => true
  | .classDef => true
  | .other => false

/-- Chunk produced for a definition node (total companion of chunkOfNode
on definition nodes; the value on other nodes is irrelevant). -/
def defChunk (node : PyNode) (file_path file_content project_id : String) : ChunkCreate :=
  match node.kind with
  | .classDef => create_class_chunk node file_path file_content project_id
  | _ => create_function_chunk node file_path file_content project_id

/-- Formula stated by the spec for a definition chunk's code: the exact
line slice of the source text from the 1-indexed AST start line (converted
to a 0-indexed slice) up to the exclusive end line, which is the reported
end line when present and start + 1 otherwise. -/
def specChunkCode (content : String) (astStartLine : Nat) (astEndLine : Option Nat) : String :=
  let endLine := astEndLine.getD (astStartLine + 1)
  joinNl (pySlice (pySplitLines content) (astStartLine - 1) endLine)

/-! ## Scenario A (spec section 8): def foo / class Bar containing def baz

The tree below is the ast.parse output for the scenario source: foo spans
lines 1-2, Bar lines 4-6, the nested baz lines 5-6; statement bodies are
other-kind nodes. -/

/-- Source text of scenario A. -/
def scenarioAText : String :=
  "def foo():\n    return 1\n\nclass Bar:\n    def baz(self):\n        return 2\n"

/-- AST node for function foo (lines 1-2). -/
def fooNode : PyNode :=
  .mk .functionDef "foo" 1 (some 2) [.mk .other "" 2 (some 2) []]

/-- AST node for the nested function baz (lines 5-6). -/
def bazNode : PyNode :=
  .mk .functionDef "baz" 5 (some 6) [.mk .other "" 6 (some 6) []]

/-- AST node for class Bar (lines 4-6) containing baz. -/
def barNode : PyNode :=
  .mk .classDef "Bar" 4 (some 6) [bazNode]

/-- Module node of scenario A. -/
def scenarioATree : PyNode :=
  .mk .other "" 1 (some 6) [fooNode, barNode]

/-- Expected chunk for function foo in scenario A. -/
def fooChunkA : ChunkCreate :=
  { project_id := "p", function_name := some "foo", file_path := "test.py",
    language := "python", chunk_type := "function",
    code := "def foo():\n    return 1" }

/-- Expected chunk for class Bar in scenario A. -/
def barChunkA : ChunkCreate :=
  { project_id := "p", function_name := some "Bar", file_path := "test.py",
    language := "python", chunk_type := "class",
    code := "class Bar:\n    def baz(self):\n        return 2" }

/-- Expected chunk for the nested function baz in scenario A. -/
def bazChunkA : ChunkCreate :=
  { project_id := "p", function_name := some "baz", file_path := "test.py",
    language := "python", chunk_type := "function",
    code := "    def baz(self):\n        return 2" }

/-! ## Summarizer fallback (backend/summarizer.py) -/

/-- Result shape of CodeSummarizer.summarize_code (the error key of the
fallback dictionary, which merely echoes the exception text, is not
modelled). -/
structure SummaryResult where
  summary : String
  combined : String
  tokens : Nat
  model : String
deriving DecidableEq, Repr

/-- Model of CodeSummarizer._create_combined_text. -/
def create_combined_text (summary code : String) : String :=
  summary ++ "\n\n" ++ code

/-- Fallback summary text built by the exception handler of
_summarize_with_ollama: a title-cased unit kind, the unit name when the
Python string is truthy (present and non-empty), and the language. -/
def fallback_summary (chunk_type : String) (function_name : Option String)
    (language : String) : String :=
  let base := "# " ++ pyTitle chunk_type
  let withName :=
    match function_name with
    | some n => if n = "" then base else base ++ " " ++ n
    | none => base
  withName ++ " in " ++ language

/-- Model of the exception handler of _summarize_with_ollama: the value
summarize_code returns whenever the Ollama collaborator call fails
(timeout, non-200 response, unreachable host). -/
def summarize_fallback (code language chunk_type : String)
    (function_name : Option String) : SummaryResult :=
  let s := fallback_summary chunk_type function_name language
  { summary := s
    combined := create_combined_text s code
    tokens := pyWordCount code + pyWordCount s
    model := "fallback" }

/-! ## Enrichment pipeline (backend/main.py process_project, backend/db.py)

The Metadata Store is modelled as the list of chunk rows plus a fresh-id
counter; the Vector Index as the list of point ids successfully upserted.
Each fallible collaborator or store call of the per-chunk loop carries an
explicit outcome flag; the except handlers of process_project translate a
false flag into skipping the rest of the chunk (or file). -/

/-- Row of the chunks table (db.py create_tables): enrichment fields start
out NULL. -/
structure ChunkRow where
  chunk_id : Nat
  project_id : String
  function_name : Option String
  file_path : String
  language : String
  chunk_type : String
  code : String
  summary : Option String
  combined : Option String
  tokens : Option Nat
  qdrant_id : Option String
deriving DecidableEq, Repr

/-- Joint state of the two stores during one processing request. -/
structure PipeState where
  next_id : Nat
  chunks : List ChunkRow
  vector_index : List String
deriving DecidableEq, Repr

/-- State at the start of a processing request. -/
def initState : PipeState :=
  { next_id := 0, chunks := [], vector_index := [] }

/-- Model of Database.create_chunk: INSERT a new row with only identity
and code fields populated; returns the fresh chunk id. -/
def create_chunk (s : PipeState) (draft : ChunkCreate) : PipeState × Nat :=
  let row : ChunkRow :=
    { chunk_id := s.next_id
      project_id := draft.project_id
      function_name := draft.function_name
      file_path := draft.file_path
      language := draft.language
      chunk_type := draft.chunk_type
      code := draft.code
      summary := none
      combined := none
      tokens := none
      qdrant_id := none }
  ({ next_id := s.next_id + 1
     chunks := s.chunks ++ [row]
     vector_index := s.vector_index }, s.next_id)

/-- Model of Database.update_chunk_summary: one UPDATE setting summary,
combined and tokens together. -/
def update_chunk_summary (s : PipeState) (cid : Nat)
    (summary combined : String) (tokens : Nat) : PipeState :=
  { s with chunks := s.chunks.map (fun r =>
      if r.chunk_id = cid then
        { r with summary := some summary, combined := some combined, tokens := some tokens }
      else r) }

/-- Model of VectorStore.upsert_chunk: record the point id as written to
the Vector Index. -/
def upsert_chunk (s : PipeState) (qdrant_id : String) : PipeState :=
  { s with vector_index := qdrant_id :: s.vector_index }

/-- Model of Database.update_chunk_embedding: one UPDATE setting the
qdrant_id column. -/
def update_chunk_embedding (s : PipeState) (cid : Nat) (qdrant_id : String) : PipeState :=
  { s with chunks := s.chunks.map (fun r =>
      if r.chunk_id = cid then { r with qdrant_id := some qdrant_id } else r) }

/-- Per-chunk inputs of the pipeline loop: the draft plus the outcome of
each fallible call.  summarizeOk models summarize_code itself raising
(for example an unsupported provider); collaborator failures inside it
are already absorbed by the fallback and are a true outcome. -/
structure ChunkJob where
  draft : ChunkCreate
  createOk : Bool
  summarizeOk : Bool
  summary : String
  combined : String
  tokens : Nat
  updateSummaryOk : Bool
  embedOk : Bool
  upsertOk : Bool
  linkOk : Bool
deriving DecidableEq, Repr

/-- Result of processing one chunk: final state, whether processed_chunks
was incremented, and every intermediate store state in order (the states
reachable while the chunk was being processed). -/
structure ChunkOutcome where
  state : PipeState
  ok : Bool
  states : List PipeState
deriving Repr

/-- Model of the per-chunk body of process_project (main.py): create the
row, summarize, update summary, embed, upsert the vector, link the row;
any failure aborts the rest of the chunk, leaving the store state as the
last successful call left it. -/
def process_chunk (s : PipeState) (job : ChunkJob) : ChunkOutcome :=
  if !job.createOk then { state := s, ok := false, states := [] }
  else
    let p := create_chunk s job.draft
    let s1 := p.1
    let cid := p.2
    if !job.summarizeOk then { state := s1, ok := false, states := [s1] }
    else if !job.updateSummaryOk then { state := s1, ok := false, states := [s1] }
    else
      let s2 := update_chunk_summary s1 cid job.summary job.combined job.tokens
      if !job.embedOk then { state := s2, ok := false, states := [s1, s2] }
      else if !job.upsertOk then { state := s2, ok := false, states := [s1, s2] }
      else
        let s3 := upsert_chunk s2 (toString cid)
        if !job.linkOk then { state := s3, ok := false, states := [s1, s2, s3] }
        else
          let s4 := update_chunk_embedding s3 cid (toString cid)
          { state := s4, ok := true, states := [s1, s2, s3, s4] }

/-- Chunk-level success: every fallible call of the per-chunk body
succeeded. -/
def chunkSucceeds (job : ChunkJob) : Bool :=
  job.createOk && job.summarizeOk && job.updateSummaryOk &&
    job.embedOk && job.upsertOk && job.linkOk

/-- Sequential loop over the chunks of one file: returns the final state,
the number of processed chunks, and all intermediate states. -/
def process_chunks (s : PipeState) : List ChunkJob → PipeState × Nat × List PipeState
  | [] => (s, 0, [])
  | job :: rest =>
    let r := process_chunk s job
    let rec2 := process_chunks r.state rest
    (rec2.1, (if r.ok then 1 else 0) + rec2.2.1, r.states ++ rec2.2.2)

/-- Per-file inputs: whether read_project_file succeeds, and the chunk
jobs for the chunker output of the file. -/
structure FileJob where
  readOk : Bool
  chunks : List ChunkJob
deriving Repr

/-- Model of the per-file body of process_project: a failed read skips the
file entirely (contributing to neither count); otherwise total_chunks
grows by the chunker output length and each chunk is processed. -/
def process_file (s : PipeState) (file : FileJob) : PipeState × Nat × Nat × List PipeState :=
  if !file.readOk then (s, 0, 0, [])
  else
    let r := process_chunks s file.chunks
    (r.1, file.chunks.length, r.2.1, r.2.2)

/-- Sequential loop over the files of the project. -/
def process_project_files (s : PipeState) :
    List FileJob → PipeState × Nat × Nat × List PipeState
  | [] => (s, 0, 0, [])
  | f :: rest =>
    let r1 := process_file s f
    let r2 := process_project_files r1.1 rest
    (r2.1, r1.2.1 + r2.2.1, r1.2.2.1 + r2.2.2.1, r1.2.2.2 ++ r2.2.2.2)

/-- Aggregate result of one processing request. -/
structure ProcessResult where
  state : PipeState
  total_chunks : Nat
  processed_chunks : Nat
  states : List PipeState
deriving Repr

/-- Model of the body of process_project (main.py lines 98-196) after the
project lookup and file listing succeeded: drive every file and return
the aggregate counts; the function is total, so per-chunk and per-file
failures never raise. -/
def process_project (files : List FileJob) : ProcessResult :=
  let r := process_project_files initState files
  { state := r.1
    total_chunks := r.2.1
    processed_chunks := r.2.2.1
    states := r.2.2.2 }

/-- Dual-store link invariant of claim C7 (the direction the code
guarantees): a row's qdrant_id, when set, equals the row's own identifier
in string form and names a vector actually written to the index. -/
def qdrantInv (s : PipeState) : Prop :=
  ∀ row ∈ s.chunks, ∀ q, row.qdrant_id = some q →
    q = toString row.chunk_id ∧ q ∈ s.vector_index

/-- Summarization atomicity invariant of claim C8: a row's summary,
combined and tokens fields are set together or absent together. -/
def summaryInv (s : PipeState) : Prop :=
  ∀ row ∈ s.chunks,
    (row.summary.isSome ↔ row.combined.isSome) ∧
    (row.summary.isSome ↔ row.tokens.isSome)

/-- Chunk job whose every fallible call succeeds. -/
def allOkJob : ChunkJob :=
  { draft := fooChunkA, createOk := true, summarizeOk := true,
    summary := "# s", combined := "# s\n\nreturn 1", tokens := 3,
    updateSummaryOk := true, embedOk := true, upsertOk := true, linkOk := true }

/-- Chunk job failing at the embedding step. -/
def embedFailJob : ChunkJob :=
  { allOkJob with embedOk := false }

/-- Chunk job failing at the final metadata link step, after the vector
was successfully written. -/
def linkFailJob : ChunkJob :=
  { allOkJob with linkOk := false }

/-- Scenario C of the spec: two files, the first unreadable, the second
yielding three chunks of which the middle one fails at the embedding
step. -/
def scenarioCFiles : List FileJob :=
  [ { readOk := false, chunks := [allOkJob, allOkJob] },
    { readOk := true, chunks := [allOkJob, embedFailJob, allOkJob] } ]

/-- Project with one readable file whose single chunk fully succeeds. -/
def oneGoodFile : List FileJob :=
  [ { readOk := true, chunks := [allOkJob] } ]

/-- Project with one readable file whose single chunk fails at the final
metadata link step. -/
def oneLinkFailFile : List FileJob :=
  [ { readOk := true, chunks := [linkFailJob] } ]

/-- Row left in the Metadata Store by oneGoodFile: fully enriched and
linked. -/
def processedRowA : ChunkRow :=
  { chunk_id := 0, project_id := "p", function_name := some "foo",
    file_path := "test.py", language := "python", chunk_type := "function",
    code := "def foo():\n    return 1", summary := some "# s",
    combined := some "# s\n\nreturn 1", tokens := some 3,
    qdrant_id := some "0" }

/-- Row left in the Metadata Store by oneLinkFailFile: fully summarized,
its vector written, but never linked. -/
def orphanRowA : ChunkRow :=
  { processedRowA with qdrant_id := none }

/-! ## Similarity search (backend/vector_store.py, backend/main.py)

The Vector Index itself is the external Qdrant service.
Modelled from the spec: searchVectors (spec sections 4.4 and 6) returns
the limit nearest stored vectors by cosine similarity, restricted to the
given project when a filter is supplied, in descending score order.  The
similarity scoring is abstracted into a parameter; scores are rational. -/

/-- Payload stored with each vector (vector_store.py upsert_chunk). -/
structure VectorPayload where
  project_id : String
  file_path : String
  function_name : Option String
  language : String
  chunk_type : String
  summary : String
  code : String
  combined : String
deriving DecidableEq, Repr

/-- A point stored in the Vector Index. -/
structure IndexedPoint where
  id : String
  vector : List ℚ
  payload : VectorPayload
deriving DecidableEq, Repr

/-- A scored point as the index returns it. -/
structure ScoredPoint where
  id : String
  score : ℚ
  payload : VectorPayload
deriving DecidableEq, Repr

/-- Descending-score relation used to order search results. -/
def scoreGe (a b : ScoredPoint) : Prop :=
  b.score ≤ a.score

instance : DecidableRel scoreGe := fun a b => inferInstanceAs (Decidable (b.score ≤ a.score))

instance : IsTotal ScoredPoint scoreGe := ⟨fun a b => le_total b.score a.score⟩

instance : IsTrans ScoredPoint scoreGe := ⟨fun _ _ _ h1 h2 => le_trans h2 h1⟩

/-- Modelled from the spec: the searchVectors primitive of the external
Vector Index (spec sections 4.4 and 6) — score every stored point that
passes the project filter, order by descending score, return the first
limit points. -/
def searchVectors (sim : List ℚ → List ℚ → ℚ) (store : List IndexedPoint)
    (queryVector : List ℚ) (limit : Nat) (filterProject : Option String) :
    List ScoredPoint :=
  let matching := store.filter (fun p =>
    match filterProject with
    | some pid => p.payload.project_id == pid
    | none => true)
  let scored := matching.map (fun p =>
    { id := p.id, score := sim queryVector p.vector, payload := p.payload })
  (scored.insertionSort scoreGe).take limit

/-- Result dictionary built by VectorStore.search_similar for one point. -/
structure SearchHit where
  id : String
  score : ℚ
  payload : VectorPayload
deriving DecidableEq, Repr

/-- Formatting step of search_similar: copy id, score and payload. -/
def formatPoint (p : ScoredPoint) : SearchHit :=
  { id := p.id, score := p.score, payload := p.payload }

/-- Model of VectorStore.search_similar: query the index and format each
returned point in order, nothing else. -/
def search_similar (sim : List ℚ → List ℚ → ℚ) (store : List IndexedPoint)
    (queryEmbedding : List ℚ) (limit : Nat) (project_id : Option String) :
    List SearchHit :=
  (searchVectors sim store queryEmbedding limit project_id).map formatPoint

/-- Model of the search endpoint (main.py search_chunks): embed the query
text with the Embedding Collaborator, then delegate to search_similar. -/
def search_chunks (sim : List ℚ → List ℚ → ℚ) (store : List IndexedPoint)
    (embed : String → List ℚ) (query : String) (project_id : Option String)
    (limit : Nat) : List SearchHit :=
  search_similar sim store (embed query) limit project_id

/-- Sample payload for project p1. -/
def samplePayloadP1 : VectorPayload :=
  { project_id := "p1", file_path := "a.py", function_name := some "f",
    language := "python", chunk_type := "function", summary := "# s",
    code := "c", combined := "# s\n\nc" }

/-- Sample payload for project p2. -/
def samplePayloadP2 : VectorPayload :=
  { samplePayloadP1 with project_id := "p2" }

/-- Sample index contents: two points of project p1 and one of p2. -/
def sampleStore : List IndexedPoint :=
  [ { id := "a", vector := [1], payload := samplePayloadP1 },
    { id := "b", vector := [2], payload := samplePayloadP2 },
    { id := "c", vector := [3], payload := samplePayloadP1 } ]

/-- Constant similarity used for concrete witnesses. -/
def constSim : List ℚ → List ℚ → ℚ := fun _ _ => 0

/-- Constant embedder used for concrete witnesses. -/
def constEmbed : String → List ℚ := fun _ => []

/-! ## Basic lemmas about the traversal -/

theorem PyNode.size_eq (n : PyNode) :
    PyNode.size n = 1 + PyNode.sizeList n.children := by
  cases n
  rfl

theorem PyNode.sizeList_append (a b : List PyNode) :
    PyNode.sizeList (a ++ b) = PyNode.sizeList a + PyNode.sizeList b := by
  induction a with
  | nil => simp [PyNode.sizeList]
  | cons n ns ih => simp [PyNode.sizeList, ih]; omega

theorem walkAux_fuel_irrelevant :
    ∀ f1 : Nat, ∀ queue : List PyNode, ∀ f2 : Nat,
      PyNode.sizeList queue ≤ f1 → PyNode.sizeList queue ≤ f2 →
      walkAux f1 queue = walkAux f2 queue := by
  intro f1
  induction f1 with
  | zero =>
    intro queue f2 h1 _
    cases queue with
    | nil => cases f2 <;> rfl
    | cons n rest =>
      exfalso
      have := PyNode.size_eq n
      simp [PyNode.sizeList] at h1
      omega
  | succ f ih =>
    intro queue f2 h1 h2
    cases queue with
    | nil => cases f2 <;> rfl
    | cons n rest =>
      have hs : PyNode.sizeList (n :: rest) = PyNode.sizeList (rest ++ n.children) + 1 := by
        simp [PyNode.sizeList, PyNode.sizeList_append, PyNode.size_eq n]
        omega
      cases f2 with
      | zero => exfalso; omega
      | succ g =>
        simp only [walkAux]
        rw [ih (rest ++ n.children) g (by omega) (by omega)]

/-- Unfolding equation showing walkList is the genuine breadth-first
traversal: visit the head, enqueue its children at the back. -/
theorem walkList_cons (n : PyNode) (rest : List PyNode) :
    walkList (n :: rest) = n :: walkList (rest ++ n.children) := by
  have hs : PyNode.sizeList (n :: rest) = PyNode.sizeList (rest ++ n.children) + 1 := by
    simp [PyNode.sizeList, PyNode.sizeList_append, PyNode.size_eq n]
    omega
  simp only [walkList, hs, walkAux]

/-! ## Chunker lemmas -/

theorem filterMap_chunkOfNode_eq (fp fc pid : String) (l : List PyNode) :
    l.filterMap (fun n => chunkOfNode n fp fc pid) =
      (l.filter isDefinitionNode).map (fun n => defChunk n fp fc pid) := by
  induction l with
  | nil => rfl
  | cons n ns ih =>
    cases hk : n.kind with
    | functionDef =>
      have hsome : chunkOfNode n fp fc pid = some (create_function_chunk n fp fc pid) := by
        simp [chunkOfNode, hk]
      have hdef : isDefinitionNode n = true := by simp [isDefinitionNode, hk]
      have hchunk : defChunk n fp fc pid = create_function_chunk n fp fc pid := by
        simp [defChunk, hk]
      simp [List.filterMap_cons, List.filter_cons, hsome, hdef, hchunk, ih]
    | classDef =>
      have hsome : chunkOfNode n fp fc pid = some (create_class_chunk n fp fc pid) := by
        simp [chunkOfNode, hk]
      have hdef : isDefinitionNode n = true := by simp [isDefinitionNode, hk]
      have hchunk : defChunk n fp fc pid = create_class_chunk n fp fc pid := by
        simp [defChunk, hk]
      simp [List.filterMap_cons, List.filter_cons, hsome, hdef, hchunk, ih]
    | other =>
      have hnone : chunkOfNode n fp fc pid = none := by simp [chunkOfNode, hk]
      have hdef : isDefinitionNode n = false := by simp [isDefinitionNode, hk]
      simp [List.filterMap_cons, List.filter_cons, hnone, hdef, ih]

theorem create_function_chunk_code (node : PyNode) (fp fc pid : String) :
    (create_function_chunk node fp fc pid).code =
      specChunkCode fc node.lineno node.endLineno := by
  cases he : node.endLineno <;>
    simp [create_function_chunk, specChunkCode, get_end_line, he]

theorem create_class_chunk_code (node : PyNode) (fp fc pid : String) :
    (create_class_chunk node fp fc pid).code =
      specChunkCode fc node.lineno node.endLineno := by
  cases he : node.endLineno <;>
    simp [create_class_chunk, specChunkCode, get_end_line, he]

/-! ## Claim theorems for the chunker -/

/-- Claim C1: for every successfully parsed Python source, the chunker
emits exactly one chunk per function-definition node and one per
class-definition node anywhere in the tree (nested definitions included),
in traversal order; and on the scenario A source (def foo, class Bar
containing def baz) it emits exactly the three chunks function foo,
class Bar, function baz. -/
theorem chunker_one_chunk_per_definition_node
    (file_path file_content project_id : String) (tree : PyNode)
    (hne : 0 < ((walkList [tree]).filter isDefinitionNode).length) :
    chunk_file file_path file_content "python" project_id (.ok tree) =
      ((walkList [tree]).filter isDefinitionNode).map
        (fun n => defChunk n file_path file_content project_id) := by
  have hred : chunk_file file_path file_content "python" project_id (.ok tree) =
      chunk_python_file file_path file_content project_id (.ok tree) := by
    simp [chunk_file]
  rw [hred]
  simp only [chunk_python_file]
  rw [filterMap_chunkOfNode_eq]
  cases hfe : (walkList [tree]).filter isDefinitionNode with
  | nil => rw [hfe] at hne; simp at hne
  | cons a l => simp

/-- Scenario A instance of claim C1: the concrete three-chunk output,
witnessing the hypothesis of the general theorem. -/
theorem chunker_one_chunk_per_definition_node_witness :
    chunk_file "test.py" scenarioAText "python" "p" (.ok scenarioATree) =
        ((walkList [scenarioATree]).filter isDefinitionNode).map
          (fun n => defChunk n "test.py" scenarioAText "p")
    ∧ chunk_file "test.py" scenarioAText "python" "p" (.ok scenarioATree) =
        [fooChunkA, barChunkA, bazChunkA] :=
  ⟨chunker_one_chunk_per_definition_node "test.py" scenarioAText "p" scenarioATree
      (by decide),
   by decide⟩

/-- Claim C2: every function or class chunk emitted for a parsed Python
file carries as code the exact line slice of the source text determined
by its node: from the 1-indexed AST start line (converted to a 0-indexed
slice) up to the reported end line, the end line defaulting to start + 1
when the parser supplies none. -/
theorem chunker_code_is_exact_line_slice
    (fp fc pid : String) (tree : PyNode) (c : ChunkCreate)
    (hc : c ∈ chunk_file fp fc "python" pid (.ok tree))
    (hk : c.chunk_type = "function" ∨ c.chunk_type = "class") :
    ∃ n, n ∈ walkList [tree] ∧ isDefinitionNode n = true ∧
      c.code = specChunkCode fc n.lineno n.endLineno := by
  have hred : chunk_file fp fc "python" pid (.ok tree) =
      chunk_python_file fp fc pid (.ok tree) := by
    simp [chunk_file]
  rw [hred] at hc
  simp only [chunk_python_file] at hc
  by_cases hemp :
      ((walkList [tree]).filterMap (fun node => chunkOfNode node fp fc pid)).isEmpty = true
  · rw [if_pos hemp] at hc
    simp only [List.mem_singleton] at hc
    subst hc
    simp [moduleChunk] at hk
  · rw [if_neg hemp] at hc
    obtain ⟨n, hn, heq⟩ := List.mem_filterMap.mp hc
    refine ⟨n, hn, ?_, ?_⟩
    · cases hkind : n.kind <;> simp [chunkOfNode, hkind] at heq <;>
        simp [isDefinitionNode, hkind]
    · cases hkind : n.kind <;> simp [chunkOfNode, hkind] at heq
      · rw [← heq, create_function_chunk_code]
      · rw [← heq, create_class_chunk_code]

/-- Concrete instance of claim C2 at scenario A: the chunk emitted for
class Bar is in the output and its code is the exact slice of lines 4-6. -/
theorem chunker_code_is_exact_line_slice_witness :
    ∃ n, n ∈ walkList [scenarioATree] ∧ isDefinitionNode n = true ∧
      barChunkA.code = specChunkCode scenarioAText n.lineno n.endLineno :=
  chunker_code_is_exact_line_slice "test.py" scenarioAText "p" scenarioATree
    barChunkA (by decide) (Or.inr rfl)

/-- Claim C3: chunk_file is total and always returns at least one chunk:
an unsupported language yields the single whole-file chunk, a parsed
Python file without definitions yields the single module chunk, and an
unparseable Python file yields the single whole-file chunk. -/
theorem chunk_file_always_returns_a_chunk
    (fp fc lang pid : String) (parsed : Except Unit PyNode) :
    0 < (chunk_file fp fc lang pid parsed).length
    ∧ (lang ≠ "python" →
        chunk_file fp fc lang pid parsed = [fileChunk fp fc lang pid])
    ∧ (∀ tree, parsed = .ok tree →
        ((walkList [tree]).filter isDefinitionNode).length = 0 →
        chunk_file fp fc "python" pid parsed = [moduleChunk fp fc pid])
    ∧ (∀ e, parsed = .error e →
        chunk_file fp fc "python" pid parsed = [fileChunk fp fc "python" pid]) := by
  refine ⟨?_, ?_, ?_, ?_⟩
  · by_cases hl : lang = "python"
    · subst hl
      cases parsed with
      | error e => simp [chunk_file, chunk_python_file]
      | ok tree =>
        have hred : chunk_file fp fc "python" pid (.ok tree) =
            chunk_python_file fp fc pid (.ok tree) := by simp [chunk_file]
        rw [hred]
        simp only [chunk_python_file]
        by_cases hemp :
            ((walkList [tree]).filterMap
              (fun node => chunkOfNode node fp fc pid)).isEmpty = true
        · rw [if_pos hemp]; simp
        · rw [if_neg hemp]
          cases hl2 : (walkList [tree]).filterMap (fun node => chunkOfNode node fp fc pid) with
          | nil => rw [hl2] at hemp; simp at hemp
          | cons a l => simp
    · simp [chunk_file, hl]
  · intro hl
    simp [chunk_file, hl]
  · intro tree hp hzero
    subst hp
    have hred : chunk_file fp fc "python" pid (.ok tree) =
        chunk_python_file fp fc pid (.ok tree) := by simp [chunk_file]
    rw [hred]
    simp only [chunk_python_file]
    rw [filterMap_chunkOfNode_eq]
    cases hfe : (walkList [tree]).filter isDefinitionNode with
    | nil => simp
    | cons a l => rw [hfe] at hzero; simp at hzero
  · intro e hp
    subst hp
    simp [chunk_file, chunk_python_file]

/-- Concrete instances discharging the hypotheses of claim C3: an
unsupported language and an unparseable Python file each yield the single
whole-file chunk, and a Python file whose tree has no definitions yields
the module chunk. -/
theorem chunk_file_always_returns_a_chunk_witness :
    chunk_file "a.js" "let x = 1" "javascript" "p" (.error ()) =
        [fileChunk "a.js" "let x = 1" "javascript" "p"]
    ∧ chunk_file "b.py" "def (" "python" "p" (.error ()) =
        [fileChunk "b.py" "def (" "python" "p"]
    ∧ chunk_file "c.py" "x = 1" "python" "p"
          (.ok (.mk .other "" 1 (some 1) [.mk .other "" 1 (some 1) []])) =
        [moduleChunk "c.py" "x = 1" "p"] :=
  ⟨(chunk_file_always_returns_a_chunk "a.js" "let x = 1" "javascript" "p"
      (.error ())).2.1 (by decide),
   (chunk_file_always_returns_a_chunk "b.py" "def (" "python" "p"
      (.error ())).2.2.2 () rfl,
   (chunk_file_always_returns_a_chunk "c.py" "x = 1" "python" "p"
      (.ok (.mk .other "" 1 (some 1) [.mk .other "" 1 (some 1) []]))).2.2.1
      (.mk .other "" 1 (some 1) [.mk .other "" 1 (some 1) []]) rfl (by decide)⟩

/-- Claim C4: when structural parsing of a Python file fails, chunk_file
emits exactly one chunk of kind file whose code is the entire file text;
the model is a total function, so no error reaches the caller. -/
theorem chunker_parse_failure_whole_file_fallback (fp fc pid : String) (e : Unit) :
    chunk_file fp fc "python" pid (.error e) =
      [{ project_id := pid, function_name := none, file_path := fp,
         language := "python", chunk_type := "file", code := fc }] := by
  simp [chunk_file, chunk_python_file, fileChunk]

/-- Claim C10: every chunk emitted by the chunker has its kind among
function, class, module and file, and carries a unit name exactly when its
kind is function or class. -/
theorem chunker_kind_and_name_invariant
    (fp fc lang pid : String) (parsed : Except Unit PyNode) (c : ChunkCreate)
    (hc : c ∈ chunk_file fp fc lang pid parsed) :
    (c.chunk_type = "function" ∨ c.chunk_type = "class" ∨
      c.chunk_type = "module" ∨ c.chunk_type = "file")
    ∧ (c.function_name.isSome ↔
        (c.chunk_type = "function" ∨ c.chunk_type = "class")) := by
  by_cases hl : lang = "python"
  · subst hl
    cases parsed with
    | error e =>
      have : c = fileChunk fp fc "python" pid := by
        simpa [chunk_file, chunk_python_file] using hc
      subst this
      simp [fileChunk]
    | ok tree =>
      have hred : chunk_file fp fc "python" pid (.ok tree) =
          chunk_python_file fp fc pid (.ok tree) := by simp [chunk_file]
      rw [hred] at hc
      simp only [chunk_python_file] at hc
      by_cases hemp :
          ((walkList [tree]).filterMap (fun node => chunkOfNode node fp fc pid)).isEmpty = true
      · rw [if_pos hemp] at hc
        simp only [List.mem_singleton] at hc
        subst hc
        simp [moduleChunk]
      · rw [if_neg hemp] at hc
        obtain ⟨n, _, heq⟩ := List.mem_filterMap.mp hc
        cases hkind : n.kind <;> simp [chunkOfNode, hkind] at heq <;> rw [← heq]
        · simp [create_function_chunk]
        · simp [create_class_chunk]
  · have : c = fileChunk fp fc lang pid := by
      simpa [chunk_file, hl] using hc
    subst this
    simp [fileChunk]

/-- Concrete instance of claim C10 at scenario A: the chunk for foo has
kind function and carries a name. -/
theorem chunker_kind_and_name_invariant_witness :
    (fooChunkA.chunk_type = "function" ∨ fooChunkA.chunk_type = "class" ∨
      fooChunkA.chunk_type = "module" ∨ fooChunkA.chunk_type = "file")
    ∧ (fooChunkA.function_name.isSome ↔
        (fooChunkA.chunk_type = "function" ∨ fooChunkA.chunk_type = "class")) :=
  chunker_kind_and_name_invariant "test.py" scenarioAText "python" "p"
    (.ok scenarioATree) fooChunkA (by decide)

/-! ## Claim theorem for the summarizer fallback -/

/-- Claim C5: on any summarization-collaborator failure the returned
result has summary of the exact form hash-sign, title-cased unit kind,
optional unit name, "in", language; combined text equal to summary,
blank line, code; and token count equal to the word count of the code
plus the word count of the summary; in particular a failed summarization
of a function named foo in language go yields "# Function foo in go". -/
theorem summarizer_fallback_exact_form (code language chunk_type : String)
    (function_name : Option String) :
    (summarize_fallback code language chunk_type function_name).combined =
        (summarize_fallback code language chunk_type function_name).summary
          ++ "\n\n" ++ code
    ∧ (summarize_fallback code language chunk_type function_name).tokens =
        pyWordCount code +
          pyWordCount (summarize_fallback code language chunk_type function_name).summary
    ∧ (function_name = none →
        (summarize_fallback code language chunk_type function_name).summary =
          "# " ++ pyTitle chunk_type ++ " in " ++ language)
    ∧ (∀ n, function_name = some n → n ≠ "" →
        (summarize_fallback code language chunk_type function_name).summary =
          "# " ++ pyTitle chunk_type ++ " " ++ n ++ " in " ++ language)
    ∧ (summarize_fallback code "go" "function" (some "foo")).summary =
        "# Function foo in go" := by
  refine ⟨rfl, rfl, ?_, ?_, ?_⟩
  · intro h
    subst h
    rfl
  · intro n h hne
    subst h
    simp [summarize_fallback, fallback_summary, hne]
  · rfl

/-- Concrete instances discharging the hypotheses of claim C5: the named
and the nameless fallback summaries at explicit inputs. -/
theorem summarizer_fallback_exact_form_witness :
    (summarize_fallback "return 1" "go" "function" (some "foo")).summary =
        "# " ++ pyTitle "function" ++ " " ++ "foo" ++ " in " ++ "go"
    ∧ (summarize_fallback "return 1" "go" "function" none).summary =
        "# " ++ pyTitle "function" ++ " in " ++ "go" :=
  ⟨(summarizer_fallback_exact_form "return 1" "go" "function"
      (some "foo")).2.2.2.1 "foo" rfl (by decide),
   (summarizer_fallback_exact_form "return 1" "go" "function"
      none).2.2.1 rfl⟩

/-! ## Pipeline preservation machinery -/

theorem process_chunk_preserves (P : PipeState → Prop)
    (hCreate : ∀ s d, P s → P (create_chunk s d).1)
    (hUpd : ∀ s cid a b t, P s → P (update_chunk_summary s cid a b t))
    (hUps : ∀ s q, P s → P (upsert_chunk s q))
    (hUpsLink : ∀ s cid, P s →
      P (update_chunk_embedding (upsert_chunk s (toString cid)) cid (toString cid)))
    (s : PipeState) (job : ChunkJob) (h : P s) :
    P (process_chunk s job).state ∧ ∀ t ∈ (process_chunk s job).states, P t := by
  have h1 : P (create_chunk s job.draft).1 := hCreate s job.draft h
  have h2 : P (update_chunk_summary (create_chunk s job.draft).1
      (create_chunk s job.draft).2 job.summary job.combined job.tokens) :=
    hUpd _ _ _ _ _ h1
  have h3 : P (upsert_chunk (update_chunk_summary (create_chunk s job.draft).1
      (create_chunk s job.draft).2 job.summary job.combined job.tokens)
      (toString (create_chunk s job.draft).2)) := hUps _ _ h2
  have h4 : P (update_chunk_embedding
      (upsert_chunk (update_chunk_summary (create_chunk s job.draft).1
        (create_chunk s job.draft).2 job.summary job.combined job.tokens)
        (toString (create_chunk s job.draft).2))
      (create_chunk s job.draft).2 (toString (create_chunk s job.draft).2)) :=
    hUpsLink _ _ h2
  unfold process_chunk
  cases hc : job.createOk <;> cases hs : job.summarizeOk <;>
    cases hu : job.updateSummaryOk <;> cases he : job.embedOk <;>
    cases hup : job.upsertOk <;> cases hl : job.linkOk <;>
    simp_all [List.forall_mem_cons]

theorem process_chunks_preserves (P : PipeState → Prop)
    (hCreate : ∀ s d, P s → P (create_chunk s d).1)
    (hUpd : ∀ s cid a b t, P s → P (update_chunk_summary s cid a b t))
    (hUps : ∀ s q, P s → P (upsert_chunk s q))
    (hUpsLink : ∀ s cid, P s →
      P (update_chunk_embedding (upsert_chunk s (toString cid)) cid (toString cid))) :
    ∀ jobs : List ChunkJob, ∀ s, P s →
      P (process_chunks s jobs).1 ∧ ∀ t ∈ (process_chunks s jobs).2.2, P t := by
  intro jobs
  induction jobs with
  | nil => exact fun s h => ⟨h, by simp [process_chunks]⟩
  | cons job rest ih =>
    intro s h
    have hchunk := process_chunk_preserves P hCreate hUpd hUps hUpsLink s job h
    have hrest := ih (process_chunk s job).state hchunk.1
    refine ⟨hrest.1, ?_⟩
    intro t ht
    rcases List.mem_append.mp ht with h1 | h2
    · exact hchunk.2 t h1
    · exact hrest.2 t h2

theorem process_file_preserves (P : PipeState → Prop)
    (hCreate : ∀ s d, P s → P (create_chunk s d).1)
    (hUpd : ∀ s cid a b t, P s → P (update_chunk_summary s cid a b t))
    (hUps : ∀ s q, P s → P (upsert_chunk s q))
    (hUpsLink : ∀ s cid, P s →
      P (update_chunk_embedding (upsert_chunk s (toString cid)) cid (toString cid)))
    (file : FileJob) (s : PipeState) (h : P s) :
    P (process_file s file).1 ∧ ∀ t ∈ (process_file s file).2.2.2, P t := by
  cases hr : file.readOk with
  | false =>
    have hred : process_file s file = (s, 0, 0, []) := by simp [process_file, hr]
    rw [hred]
    exact ⟨h, fun t ht => absurd ht (List.not_mem_nil t)⟩
  | true =>
    have := process_chunks_preserves P hCreate hUpd hUps hUpsLink file.chunks s h
    simp only [process_file, hr, Bool.not_true, ite_false]
    exact ⟨this.1, this.2⟩

theorem process_project_preserves (P : PipeState → Prop)
    (hCreate : ∀ s d, P s → P (create_chunk s d).1)
    (hUpd : ∀ s cid a b t, P s → P (update_chunk_summary s cid a b t))
    (hUps : ∀ s q, P s → P (upsert_chunk s q))
    (hUpsLink : ∀ s cid, P s →
      P (update_chunk_embedding (upsert_chunk s (toString cid)) cid (toString cid)))
    (files : List FileJob) (hinit : P initState) :
    P (process_project files).state ∧ ∀ t ∈ (process_project files).states, P t := by
  suffices hgen : ∀ fs : List FileJob, ∀ s, P s →
      P (process_project_files s fs).1 ∧
        ∀ t ∈ (process_project_files s fs).2.2.2, P t by
    exact hgen files initState hinit
  intro fs
  induction fs with
  | nil => exact fun s h => ⟨h, by simp [process_project_files]⟩
  | cons f rest ih =>
    intro s h
    have hfile := process_file_preserves P hCreate hUpd hUps hUpsLink f s h
    have hrest := ih (process_file s f).1 hfile.1
    refine ⟨hrest.1, ?_⟩
    intro t ht
    rcases List.mem_append.mp ht with h1 | h2
    · exact hfile.2 t h1
    · exact hrest.2 t h2

/-! ## Store-operation lemmas for the two invariants -/

theorem qdrantInv_create (s : PipeState) (d : ChunkCreate) (h : qdrantInv s) :
    qdrantInv (create_chunk s d).1 := by
  intro row hrow q hq
  rcases List.mem_append.mp hrow with h1 | h2
  · exact h row h1 q hq
  · simp only [List.mem_singleton] at h2
    subst h2
    simp [create_chunk] at hq

theorem qdrantInv_update_summary (s : PipeState) (cid : Nat) (a b : String)
    (t : Nat) (h : qdrantInv s) : qdrantInv (update_chunk_summary s cid a b t) := by
  intro row hrow q hq
  obtain ⟨r0, hr0, hmap⟩ := List.mem_map.mp hrow
  by_cases hid : r0.chunk_id = cid
  · rw [if_pos hid] at hmap
    subst hmap
    exact h r0 hr0 q hq
  · rw [if_neg hid] at hmap
    subst hmap
    exact h r0 hr0 q hq

theorem qdrantInv_upsert (s : PipeState) (qid : String) (h : qdrantInv s) :
    qdrantInv (upsert_chunk s qid) := by
  intro row hrow q hq
  obtain ⟨he, hm⟩ := h row hrow q hq
  exact ⟨he, List.mem_cons_of_mem _ hm⟩

theorem qdrantInv_upsert_link (s : PipeState) (cid : Nat) (h : qdrantInv s) :
    qdrantInv (update_chunk_embedding (upsert_chunk s (toString cid)) cid
      (toString cid)) := by
  intro row hrow q hq
  obtain ⟨r0, hr0, hmap⟩ := List.mem_map.mp hrow
  by_cases hid : r0.chunk_id = cid
  · rw [if_pos hid] at hmap
    subst hmap
    have hqe : q = toString cid := by
      have : some (toString cid) = some q := hq
      exact (Option.some.inj this).symm
    refine ⟨?_, ?_⟩
    · show q = toString r0.chunk_id
      rw [hqe, hid]
    · rw [hqe]
      exact List.mem_cons_self _ _
  · rw [if_neg hid] at hmap
    subst hmap
    obtain ⟨he, hm⟩ := h r0 hr0 q hq
    exact ⟨he, List.mem_cons_of_mem _ hm⟩

theorem summaryInv_create (s : PipeState) (d : ChunkCreate) (h : summaryInv s) :
    summaryInv (create_chunk s d).1 := by
  intro row hrow
  rcases List.mem_append.mp hrow with h1 | h2
  · exact h row h1
  · simp only [List.mem_singleton] at h2
    subst h2
    simp [create_chunk]

theorem summaryInv_update_summary (s : PipeState) (cid : Nat) (a b : String)
    (t : Nat) (h : summaryInv s) : summaryInv (update_chunk_summary s cid a b t) := by
  intro row hrow
  obtain ⟨r0, hr0, hmap⟩ := List.mem_map.mp hrow
  by_cases hid : r0.chunk_id = cid
  · rw [if_pos hid] at hmap
    subst hmap
    simp
  · rw [if_neg hid] at hmap
    subst hmap
    exact h r0 hr0

theorem summaryInv_upsert (s : PipeState) (qid : String) (h : summaryInv s) :
    summaryInv (upsert_chunk s qid) := by
  intro row hrow
  exact h row hrow

theorem summaryInv_upsert_link (s : PipeState) (cid : Nat) (h : summaryInv s) :
    summaryInv (update_chunk_embedding (upsert_chunk s (toString cid)) cid
      (toString cid)) := by
  intro row hrow
  obtain ⟨r0, hr0, hmap⟩ := List.mem_map.mp hrow
  by_cases hid : r0.chunk_id = cid
  · rw [if_pos hid] at hmap
    subst hmap
    exact h r0 hr0
  · rw [if_neg hid] at hmap
    subst hmap
    exact h r0 hr0

/-! ## Claim theorems for the enrichment pipeline -/

theorem process_chunk_ok (s : PipeState) (job : ChunkJob) :
    (process_chunk s job).ok = chunkSucceeds job := by
  obtain ⟨d, c, so, su, co, tk, uo, eo, upo, lo⟩ := job
  cases c <;> cases so <;> cases uo <;> cases eo <;> cases upo <;> cases lo <;> rfl

theorem process_chunks_count (jobs : List ChunkJob) :
    ∀ s, (process_chunks s jobs).2.1 = jobs.countP chunkSucceeds := by
  induction jobs with
  | nil => intro s; rfl
  | cons job rest ih =>
    intro s
    show (if (process_chunk s job).ok then 1 else 0) +
        (process_chunks (process_chunk s job).state rest).2.1 =
      List.countP chunkSucceeds (job :: rest)
    rw [process_chunk_ok, ih]
    rw [List.countP_cons]
    cases hj : chunkSucceeds job <;> (simp [hj]; try omega)

theorem process_project_files_counts (files : List FileJob) :
    ∀ s, (process_project_files s files).2.1 =
        ((files.filter (fun f => f.readOk)).map (fun f => f.chunks.length)).sum
      ∧ (process_project_files s files).2.2.1 =
        ((files.filter (fun f => f.readOk)).map
          (fun f => f.chunks.countP chunkSucceeds)).sum := by
  induction files with
  | nil => exact fun s => ⟨rfl, rfl⟩
  | cons f rest ih =>
    intro s
    cases hr : f.readOk with
    | false =>
      constructor
      · show (process_file s f).2.1 + (process_project_files (process_file s f).1 rest).2.1 = _
        simp [process_file, hr, List.filter_cons, (ih _).1]
      · show (process_file s f).2.2.1 +
            (process_project_files (process_file s f).1 rest).2.2.1 = _
        simp [process_file, hr, List.filter_cons, (ih _).2]
    | true =>
      constructor
      · show (process_file s f).2.1 + (process_project_files (process_file s f).1 rest).2.1 = _
        simp [process_file, hr, List.filter_cons, (ih _).1]
      · show (process_file s f).2.2.1 +
            (process_project_files (process_file s f).1 rest).2.2.1 = _
        simp [process_file, hr, List.filter_cons, (ih _).2, process_chunks_count]

/-- Claim C6: after a successful project lookup and file listing, the
processing request always returns aggregate counts and never raises for
per-chunk or per-file failures (the model is a total function): a file
whose read fails contributes zero chunks to both counts, a chunk that
fails at any enrichment step is counted in total_chunks but not in
processed_chunks; in particular, a project with two files, one unreadable
and one yielding three chunks of which one fails at the embedding step,
returns total 3 and processed 2. -/
theorem process_project_returns_aggregate_counts (files : List FileJob) :
    (process_project files).total_chunks =
        ((files.filter (fun f => f.readOk)).map (fun f => f.chunks.length)).sum
    ∧ (process_project files).processed_chunks =
        ((files.filter (fun f => f.readOk)).map
          (fun f => f.chunks.countP chunkSucceeds)).sum
    ∧ (process_project scenarioCFiles).total_chunks = 3
    ∧ (process_project scenarioCFiles).processed_chunks = 2 :=
  ⟨(process_project_files_counts files initState).1,
   (process_project_files_counts files initState).2,
   by decide, by decide⟩

/-- Claim C7 as amended: in every reachable store state of a processing
request, a chunk row's qdrant_id, when set, equals the chunk's own
identifier in string form and names a vector successfully written to the
Vector Index (so it is absent before the vector write); the converse
direction of the original claim is refuted by
pipeline_qdrant_id_iff_counterexample. -/
theorem pipeline_qdrant_id_set_only_if_written (files : List FileJob) :
    qdrantInv (process_project files).state ∧
      ∀ t ∈ (process_project files).states, qdrantInv t :=
  process_project_preserves qdrantInv qdrantInv_create qdrantInv_update_summary
    qdrantInv_upsert qdrantInv_upsert_link files (fun row hrow => by simp [initState] at hrow)

/-- Concrete instance discharging the hypotheses of the amended claim C7:
after a fully successful run, the single row's qdrant_id names its own
identifier and a vector present in the index. -/
theorem pipeline_qdrant_id_set_only_if_written_witness :
    "0" = toString processedRowA.chunk_id ∧
      "0" ∈ (process_project oneGoodFile).state.vector_index :=
  (pipeline_qdrant_id_set_only_if_written oneGoodFile).1 processedRowA
    (by decide) "0" (by decide)

/-- Claim C7, original form, is false on the code: when the vector write
succeeds but the final metadata update fails (db.update_chunk_embedding
raising inside the per-chunk except handler), the run completes with the
chunk's vector in the Vector Index while its qdrant_id stays absent — the
orphaned-vector state the spec itself concedes in section 4.3. -/
theorem pipeline_qdrant_id_iff_counterexample :
    (process_project oneLinkFailFile).state.chunks = [orphanRowA]
    ∧ orphanRowA.qdrant_id = none
    ∧ toString orphanRowA.chunk_id ∈
        (process_project oneLinkFailFile).state.vector_index := by
  decide

/-- Claim C8: chunk creation populates none of summary, combined and
tokens; the single summary update populates all three in one operation;
and in every reachable store state of a processing request the three
fields are set together or absent together. -/
theorem pipeline_summary_fields_atomic (files : List FileJob) :
    (∀ s d, ∃ r, (create_chunk s d).1.chunks = s.chunks ++ [r] ∧
        r.summary = none ∧ r.combined = none ∧ r.tokens = none)
    ∧ (∀ s cid a b t, ∀ row ∈ (update_chunk_summary s cid a b t).chunks,
        row.chunk_id = cid →
          row.summary = some a ∧ row.combined = some b ∧ row.tokens = some t)
    ∧ summaryInv (process_project files).state
    ∧ ∀ t ∈ (process_project files).states, summaryInv t := by
  have hmain := process_project_preserves summaryInv summaryInv_create
    summaryInv_update_summary summaryInv_upsert summaryInv_upsert_link files
    (fun row hrow => by simp [initState] at hrow)
  refine ⟨?_, ?_, hmain.1, hmain.2⟩
  · intro s d
    exact ⟨_, rfl, rfl, rfl, rfl⟩
  · intro s cid a b t row hrow hid
    obtain ⟨r0, hr0, hmap⟩ := List.mem_map.mp hrow
    by_cases h0 : r0.chunk_id = cid
    · rw [if_pos h0] at hmap
      subst hmap
      exact ⟨rfl, rfl, rfl⟩
    · rw [if_neg h0] at hmap
      subst hmap
      exact absurd hid h0

/-- Concrete instances discharging the hypotheses of claim C8: the fully
enriched row of a successful run has all three summarization fields set
together, and a freshly created row has none of them. -/
theorem pipeline_summary_fields_atomic_witness :
    ((processedRowA.summary.isSome ↔ processedRowA.combined.isSome) ∧
      (processedRowA.summary.isSome ↔ processedRowA.tokens.isSome))
    ∧ ∃ r, (create_chunk initState fooChunkA).1.chunks = initState.chunks ++ [r] ∧
        r.summary = none ∧ r.combined = none ∧ r.tokens = none :=
  ⟨(pipeline_summary_fields_atomic oneGoodFile).2.2.1 processedRowA (by decide),
   (pipeline_summary_fields_atomic oneGoodFile).1 initState fooChunkA⟩

/-! ## Claim theorem for similarity search -/

/-- Claim C9: for every query, limit and optional project filter, the
search path returns at most limit results, in descending score order
exactly as the Vector Index returned them (the endpoint only formats the
index's points, applying no reranking, deduplication or threshold
filtering), and under a project filter every returned payload carries
that project identifier.  The Vector Index itself is external and is
modelled from its spec contract (searchVectors, spec sections 4.4
and 6). -/
theorem search_returns_limit_sorted_projected
    (sim : List ℚ → List ℚ → ℚ) (store : List IndexedPoint)
    (embed : String → List ℚ) (query : String)
    (project_id : Option String) (limit : Nat) :
    (search_chunks sim store embed query project_id limit).length ≤ limit
    ∧ List.Sorted (fun a b : SearchHit => b.score ≤ a.score)
        (search_chunks sim store embed query project_id limit)
    ∧ search_chunks sim store embed query project_id limit =
        (searchVectors sim store (embed query) limit project_id).map formatPoint
    ∧ ∀ hit ∈ search_chunks sim store embed query project_id limit, ∀ pid,
        project_id = some pid → hit.payload.project_id = pid := by
  refine ⟨?_, ?_, rfl, ?_⟩
  · show ((searchVectors sim store (embed query) limit project_id).map
      formatPoint).length ≤ limit
    rw [List.length_map]
    simp only [searchVectors, List.length_take]
    exact min_le_left _ _
  · show List.Sorted (fun a b : SearchHit => b.score ≤ a.score)
      ((searchVectors sim store (embed query) limit project_id).map formatPoint)
    have hsorted : List.Sorted scoreGe
        (((store.filter (fun p =>
            match project_id with
            | some pid => p.payload.project_id == pid
            | none => true)).map (fun p =>
          ({ id := p.id, score := sim (embed query) p.vector,
             payload := p.payload } : ScoredPoint))).insertionSort scoreGe) :=
      List.sorted_insertionSort scoreGe _
    have htake := List.Pairwise.sublist (List.take_sublist limit _) hsorted
    exact List.Pairwise.map formatPoint (fun a b h => h) htake
  · intro hit hmem pid hpid
    subst hpid
    have hmem2 : hit ∈ (searchVectors sim store (embed query) limit
        (some pid)).map formatPoint := hmem
    obtain ⟨p, hp, hfmt⟩ := List.mem_map.mp hmem2
    have hp2 : p ∈ ((store.filter (fun q =>
        match some pid with
        | some pid => q.payload.project_id == pid
        | none => true)).map (fun q =>
      ({ id := q.id, score := sim (embed query) q.vector,
         payload := q.payload } : ScoredPoint))).insertionSort scoreGe :=
      List.mem_of_mem_take hp
    have hp3 := (List.mem_insertionSort scoreGe).mp hp2
    obtain ⟨ip, hip, hscored⟩ := List.mem_map.mp hp3
    have hfil := List.of_mem_filter hip
    have hproj : ip.payload.project_id = pid := by
      simpa using hfil
    rw [← hfmt, ← hscored]
    exact hproj

/-- Concrete instance discharging the hypotheses of claim C9: with a
filter on project p1 over a store holding two p1 points and one p2 point,
the returned hit carries project p1. -/
theorem search_returns_limit_sorted_projected_witness :
    ({ id := "a", score := 0, payload := samplePayloadP1 } : SearchHit).payload.project_id
      = "p1" :=
  (search_returns_limit_sorted_projected constSim sampleStore constEmbed "q"
    (some "p1") 5).2.2.2
    { id := "a", score := 0, payload := samplePayloadP1 } (by decide) "p1" rfl

end CodebaseAI
